import Mathlib

/-!
Shallow embedding of `salling_food_waste_pipeline.py` (spildspotter).

The embedding mirrors, function by function, the code of the pipeline:

* `fetchWithRetry` embeds `fetch_with_retry` (lines 40-97): a loop of at
  most `max_retries` attempts whose branches are decided by substring
  tests on the stringified exception (`"429" in error_msg`,
  `any(f"{code}" in error_msg for code in range(500, 600))`).
* `processAllStores` embeds the body of `all_stores_resource`
  (lines 133-144): coordinate normalization of the store directory.
* `harvest` embeds the body of `food_waste_stores_resource`
  (lines 178-245): the per-zip-code loop with dedup by store id,
  coordinate normalization, batch accumulation and flushing every 20 zip
  codes or at the last index, and the log records for failed / no-data
  zip codes.
* `deriveZipCodes` embeds the zip-code extraction query of `__main__`
  (lines 296-305): `SELECT DISTINCT address__zip FROM all_stores WHERE
  address__zip IS NOT NULL ORDER BY address__zip`.

Numbers that the source manipulates as Python ints (wait seconds) are
`Nat`; coordinates are `ℚ`; JSON strings are `String`; a nullable field
is an `Option`.
-/

/-! ## Substring tests on exception messages

`fetch_with_retry` classifies an exception by substring containment on
`str(e)`.  `strContains s pat` is `pat in s` for Python strings. -/

def listContainsSub (s pat : List Char) : Bool :=
  (List.range (s.length + 1)).any fun i => pat.isPrefixOf (s.drop i)

def strContains (s pat : String) : Bool :=
  listContainsSub s.data pat.data

/-- `any(f"{code}" in error_msg for code in range(500, 600))` (line 78). -/
def mentions5xx (msg : String) : Bool :=
  (List.range 100).any fun k => strContains msg (toString (500 + k))

/-! ## `fetch_with_retry` (lines 40-97)

One attempt of `client.get` either returns a JSON payload or raises an
exception.  The Python code only ever inspects `str(e)`; we nevertheless
record an optional `Retry-After` hint carried by the response so that
what the code ignores is visible in the model. -/

/-- The exception raised by one failed attempt: its stringified message
and the optional `Retry-After` hint carried by the underlying response
(never read by the code, which only looks at `str(e)`). -/
structure AttemptError where
  msg : String
  retryAfter : Option Nat
  deriving Repr, DecidableEq

/-- Outcome of one `client.get` attempt. -/
inductive Attempt (α : Type) where
  | ok (payload : List α)
  | err (e : AttemptError)
  deriving Repr, DecidableEq

/-- How `fetch_with_retry` ends: `returned (some l)` is `return l`,
`returned none` is the implicit `return None` when the `for` loop falls
through, `raised m` is an uncaught `raise`. -/
inductive FetchResult (α : Type) where
  | returned (val : Option (List α))
  | raised (msg : String)
  deriving Repr, DecidableEq

/-- The loop body of `fetch_with_retry`, lines 60-97.  `resp k` is the
outcome of the `client.get` call on attempt `k` (0-based); the returned
list records every `time.sleep` duration in order.  The `for attempt in
range(max_retries)` loop guard is carried as the structurally decreasing
fuel `maxRetries - attempt`: fuel `0` means `attempt ≥ maxRetries`, the
loop is exhausted and Python falls through, returning `None`. -/
def fetchGo (resp : Nat → Attempt α) (maxRetries : Nat) :
    Nat → Nat → List Nat → FetchResult α × List Nat
  | 0, _, waits => (.returned none, waits)
  | _fuel + 1, attempt, waits =>
    match resp attempt with
    | .ok payload => (.returned (some payload), waits)
    | .err e =>
      if strContains e.msg "429" then
        -- line 70: wait_time = (2**attempt) * 2, then `continue`
        fetchGo resp maxRetries _fuel (attempt + 1) (waits ++ [2 ^ attempt * 2])
      else if mentions5xx e.msg then
        if attempt < maxRetries - 1 then
          fetchGo resp maxRetries _fuel (attempt + 1) (waits ++ [2 ^ attempt])
        else
          -- line 87: `return []`
          (.returned (some []), waits)
      else
        if attempt < maxRetries - 1 then
          fetchGo resp maxRetries _fuel (attempt + 1) (waits ++ [2 ^ attempt])
        else
          -- line 97: `raise`
          (.raised e.msg, waits)

/-- `fetch_with_retry(client, endpoint, params, max_retries)`; the
request itself is abstracted into the attempt oracle `resp`. -/
def fetchWithRetry (resp : Nat → Attempt α) (maxRetries : Nat := 5) :
    FetchResult α × List Nat :=
  fetchGo resp maxRetries maxRetries 0 []

/-! ## Store records and coordinate normalization -/

/-- The fields of a store JSON object that the pipeline touches:
`coordinates` (a `[lon, lat]` array, nullable/absent), and the
`longitude` / `latitude` fields the normalization writes. -/
structure StoreRec where
  id : String
  coordinates : Option (List ℚ)
  longitude : Option ℚ
  latitude : Option ℚ
  deriving Repr, DecidableEq

/-- Lines 136-140 (and identically lines 225-229):
`coords = store_data.get("coordinates", [])`, `if coords and
len(coords) >= 2:` set `longitude`/`latitude`, then
`store_data.pop("coordinates", None)`. -/
def normalizeCoords (s : StoreRec) : StoreRec :=
  let coords := s.coordinates.getD []
  if !coords.isEmpty && coords.length ≥ 2 then
    { s with longitude := coords[0]?, latitude := coords[1]?,
             coordinates := none }
  else
    { s with coordinates := none }

/-- The store-processing loop of `all_stores_resource`, lines 133-144:
every fetched store is normalized and the whole list is yielded as one
batch. -/
def processAllStores (stores : List StoreRec) : List StoreRec :=
  stores.map normalizeCoords

/-! ## The food-waste harvester (`food_waste_stores_resource`) -/

/-- One store-offer group returned by `GET /v1/food-waste/?zip=...`:
the embedded `store` object plus the `queried_zip_code` field the
harvester adds. -/
structure FwGroup where
  store : StoreRec
  queried_zip_code : Option String
  deriving Repr, DecidableEq

/-- What one zip code's `fetch_with_retry` call produces, as seen by the
harvester: an uncaught exception (`fail`) or a list of groups (`ok`).
A `None` return is falsy in `if not stores:` exactly like `ok []`. -/
inductive ZipOutcome where
  | fail
  | ok (groups : List FwGroup)
  deriving Repr, DecidableEq

/-- The mutable state of the harvesting loop: `seen_store_ids`,
`current_batch`, the batches yielded so far, and the zip codes logged as
failed (line 205) or as having no stores (line 209). -/
structure HState where
  seen : List String
  currentBatch : List FwGroup
  batches : List (List FwGroup)
  failedZips : List String
  noDataZips : List String
  deriving Repr, DecidableEq

def initHState : HState :=
  { seen := [], currentBatch := [], batches := [],
    failedZips := [], noDataZips := [] }

/-- Lines 222-229: `store_data["queried_zip_code"] = zip_code`, then the
coordinate transformation on `store_data["store"]`. -/
def annotateGroup (z : String) (g : FwGroup) : FwGroup :=
  { g with queried_zip_code := some z, store := normalizeCoords g.store }

/-- The inner loop over `stores` (lines 214-232): skip a group whose
store id is in `seen_store_ids`, otherwise record the id, annotate with
the zip code, normalize coordinates and append to the current batch. -/
def dedupAdd (z : String) (st : HState) (groups : List FwGroup) : HState :=
  groups.foldl
    (fun s g =>
      if s.seen.contains g.store.id then s
      else
        { s with
          seen := s.seen ++ [g.store.id],
          currentBatch := s.currentBatch ++ [annotateGroup z g] })
    st

/-- The body of the `for i, zip_code in enumerate(zip_codes, start=1)`
loop (lines 191-243): `i` is the 1-based index, `n` is
`len(zip_codes)`.  A failed fetch or an empty result `continue`s, which
also skips the flush check at the bottom of the loop body. -/
def stepZip (fetch : String → ZipOutcome) (n i : Nat) (z : String)
    (st : HState) : HState :=
  match fetch z with
  | .fail => { st with failedZips := st.failedZips ++ [z] }
  | .ok groups =>
    if groups.isEmpty then
      { st with noDataZips := st.noDataZips ++ [z] }
    else
      let stAdded := dedupAdd z st groups
      -- line 239: `if i % zip_codes_per_batch == 0 or i == len(zip_codes):`
      if (i % 20 == 0 || i == n) && !stAdded.currentBatch.isEmpty then
        { stAdded with
          batches := stAdded.batches ++ [stAdded.currentBatch],
          currentBatch := [] }
      else
        stAdded

/-- The whole zip-code loop, carrying the 1-based index `i`. -/
def harvestGo (fetch : String → ZipOutcome) (n : Nat) :
    Nat → List String → HState → HState
  | _, [], st => st
  | i, z :: rest, st => harvestGo fetch n (i + 1) rest (stepZip fetch n i z st)

/-- `food_waste_stores_resource()` run to completion on `zip_codes`. -/
def harvest (fetch : String → ZipOutcome) (zipCodes : List String) : HState :=
  harvestGo fetch zipCodes.length 1 zipCodes initHState

/-- The records that reach the downstream consumer: the concatenation of
the yielded batches (a leftover `current_batch` is never yielded). -/
def harvestOutput (fetch : String → ZipOutcome) (zipCodes : List String) :
    List FwGroup :=
  (harvest fetch zipCodes).batches.flatten

/-- All records the dedup stage retained, yielded or still accumulated. -/
def retainedRecords (st : HState) : List FwGroup :=
  st.batches.flatten ++ st.currentBatch

/-- The store ids of a list of store-offer groups, in order. -/
def idsOf (l : List FwGroup) : List String :=
  l.map fun g => g.store.id

/-- Does querying zip code `z` return at least one group for store
`sid`?  (`fail` returns nothing.) -/
def zipHits (fetch : String → ZipOutcome) (sid : String) (z : String) : Bool :=
  match fetch z with
  | .fail => false
  | .ok groups => groups.any fun g => g.store.id == sid

/-- The first zip code in iteration order whose response contains store
`sid`. -/
def firstHit (fetch : String → ZipOutcome) (zipCodes : List String)
    (sid : String) : Option String :=
  zipCodes.find? (zipHits fetch sid)

/-! ## Zip-code enumeration (`__main__`, lines 296-305)

`SELECT DISTINCT address__zip FROM salling_data.all_stores WHERE
address__zip IS NOT NULL ORDER BY address__zip`: drop the NULLs, keep
one copy of each remaining value, sort ascending. -/

/-- Lexicographic (character-by-character) comparison, the order a SQL
`ORDER BY` ascending applies to VARCHAR values. -/
def charListLe : List Char → List Char → Bool
  | [], _ => true
  | _ :: _, [] => false
  | a :: as, b :: bs =>
    if a.toNat < b.toNat then true
    else if b.toNat < a.toNat then false
    else charListLe as bs

def zipLe (a b : String) : Bool :=
  charListLe a.data b.data

def deriveZipCodes (rows : List (Option String)) : List String :=
  List.insertionSort (fun a b => zipLe a b = true) (rows.filterMap id).dedup

/-! ## Step lemmas for `fetchGo` -/

theorem fetchGo_ok {α : Type} {resp : Nat → Attempt α} {p : List α}
    {maxRetries fuel attempt : Nat} {waits : List Nat}
    (hp : resp attempt = .ok p) :
    fetchGo resp maxRetries (fuel + 1) attempt waits =
      (.returned (some p), waits) := by
  simp [fetchGo, hp]

theorem fetchGo_429 {α : Type} {resp : Nat → Attempt α} {r : AttemptError}
    {maxRetries fuel attempt : Nat} {waits : List Nat}
    (he : resp attempt = .err r) (hc : strContains r.msg "429" = true) :
    fetchGo resp maxRetries (fuel + 1) attempt waits =
      fetchGo resp maxRetries fuel (attempt + 1) (waits ++ [2 ^ attempt * 2]) := by
  simp [fetchGo, he, hc]

theorem fetchGo_other_retry {α : Type} {resp : Nat → Attempt α}
    {r : AttemptError} {maxRetries fuel attempt : Nat} {waits : List Nat}
    (hlast : attempt < maxRetries - 1) (he : resp attempt = .err r)
    (hc : strContains r.msg "429" = false) (h5 : mentions5xx r.msg = false) :
    fetchGo resp maxRetries (fuel + 1) attempt waits =
      fetchGo resp maxRetries fuel (attempt + 1) (waits ++ [2 ^ attempt]) := by
  simp [fetchGo, hlast, he, hc, h5]

theorem fetchGo_other_raise {α : Type} {resp : Nat → Attempt α}
    {r : AttemptError} {maxRetries fuel attempt : Nat} {waits : List Nat}
    (hlast : ¬ attempt < maxRetries - 1) (he : resp attempt = .err r)
    (hc : strContains r.msg "429" = false) (h5 : mentions5xx r.msg = false) :
    fetchGo resp maxRetries (fuel + 1) attempt waits = (.raised r.msg, waits) := by
  simp [fetchGo, hlast, he, hc, h5]

theorem fetchGo_exhausted {α : Type} {resp : Nat → Attempt α}
    {maxRetries attempt : Nat} {waits : List Nat} :
    fetchGo resp maxRetries 0 attempt waits = (.returned none, waits) := rfl

/-! ## Concrete attempt sequences used as test inputs -/

/-- A first attempt that is rate limited and whose response carries a
`Retry-After` hint of 30 seconds; the second attempt succeeds. -/
def respRateLimitedWithHint : Nat → Attempt Nat := fun k =>
  if k = 0 then .err { msg := "429 Too Many Requests", retryAfter := some 30 }
  else .ok [7]

/-- A first attempt that fails with a plain 404 client error; the second
attempt succeeds. -/
def respClientErrorThenOk : Nat → Attempt Nat := fun k =>
  if k = 0 then .err { msg := "404 Not Found", retryAfter := none }
  else .ok [7]

/-- Every attempt fails with a 429 error. -/
def respAlways429 : Nat → Attempt Nat := fun _ =>
  .err { msg := "429 Too Many Requests", retryAfter := none }

/-- Three 429 errors followed by a success. -/
def respAlways429ThenOk : Nat → Attempt Nat := fun k =>
  if k < 3 then .err { msg := "429 Too Many Requests", retryAfter := none }
  else .ok [7]

/-- Every attempt fails with a 404 client error. -/
def respAlways404 : Nat → Attempt Nat := fun _ =>
  .err { msg := "404 Not Found", retryAfter := none }

/-- C4, the claim as stated, is false: the code never reads a
`Retry-After` hint.  On a 429 response carrying the hint `30`, followed
by a success, `fetch_with_retry` waits the backoff time 2 s, not the
hinted 30 s. -/
theorem fetch_retry_after_ignored_counterexample :
    respRateLimitedWithHint 0 =
      Attempt.err { msg := "429 Too Many Requests", retryAfter := some 30 } ∧
    (fetchWithRetry respRateLimitedWithHint 5).2 = [2] ∧
    (fetchWithRetry respRateLimitedWithHint 5).2 ≠ [30] := by
  refine ⟨rfl, ?_, ?_⟩ <;> decide

/-- C4 amended: on HTTP 429 the code always waits `2 * 2 ^ attempt`
seconds (exponential backoff starting at 2 s), ignoring any
`Retry-After` hint; three 429 responses followed by a success give
exactly the waits 2 s, 4 s, 8 s and the call returns the success
payload. -/
theorem fetch_429_backoff_amended {α : Type} (resp : Nat → Attempt α)
    (r0 r1 r2 : AttemptError) (p : List α)
    (h0 : resp 0 = .err r0) (hc0 : strContains r0.msg "429" = true)
    (h1 : resp 1 = .err r1) (hc1 : strContains r1.msg "429" = true)
    (h2 : resp 2 = .err r2) (hc2 : strContains r2.msg "429" = true)
    (h3 : resp 3 = .ok p) :
    fetchWithRetry resp 5 = (.returned (some p), [2, 4, 8]) := by
  unfold fetchWithRetry
  rw [fetchGo_429 h0 hc0, fetchGo_429 h1 hc1, fetchGo_429 h2 hc2,
    fetchGo_ok h3]
  simp

theorem fetch_429_backoff_amended_witness :
    fetchWithRetry respAlways429ThenOk 5 =
      (.returned (some [7]), [2, 4, 8]) :=
  fetch_429_backoff_amended respAlways429ThenOk
    { msg := "429 Too Many Requests", retryAfter := none }
    { msg := "429 Too Many Requests", retryAfter := none }
    { msg := "429 Too Many Requests", retryAfter := none }
    [7] rfl (by decide) rfl (by decide) rfl (by decide) rfl

/-- C6, the claim as stated, is false: a 4xx error other than 429 is
*not* non-retryable.  A 404 on the first attempt is retried after a 1 s
backoff wait, and the second attempt's success payload is returned. -/
theorem fetch_client_error_retried_counterexample :
    respClientErrorThenOk 0 =
      Attempt.err { msg := "404 Not Found", retryAfter := none } ∧
    fetchWithRetry respClientErrorThenOk 5 =
      (.returned (some [7]), [1]) := by
  refine ⟨rfl, ?_⟩
  decide

/-- C6 amended: a 4xx error other than 429 falls into the generic retry
branch: it is retried with exponential backoff waits 1 s, 2 s, 4 s, 8 s
and, after all 5 attempts fail, the last error is re-raised. -/
theorem fetch_client_error_backoff_amended {α : Type} (resp : Nat → Attempt α)
    (r : Nat → AttemptError)
    (he : ∀ k, k < 5 → resp k = .err (r k))
    (hc : ∀ k, k < 5 → strContains (r k).msg "429" = false)
    (h5 : ∀ k, k < 5 → mentions5xx (r k).msg = false) :
    fetchWithRetry resp 5 = (.raised (r 4).msg, [1, 2, 4, 8]) := by
  unfold fetchWithRetry
  rw [fetchGo_other_retry (by norm_num) (he 0 (by norm_num))
        (hc 0 (by norm_num)) (h5 0 (by norm_num)),
    fetchGo_other_retry (by norm_num) (he 1 (by norm_num))
        (hc 1 (by norm_num)) (h5 1 (by norm_num)),
    fetchGo_other_retry (by norm_num) (he 2 (by norm_num))
        (hc 2 (by norm_num)) (h5 2 (by norm_num)),
    fetchGo_other_retry (by norm_num) (he 3 (by norm_num))
        (hc 3 (by norm_num)) (h5 3 (by norm_num)),
    fetchGo_other_raise (by norm_num) (he 4 (by norm_num))
        (hc 4 (by norm_num)) (h5 4 (by norm_num))]
  simp

theorem fetch_client_error_backoff_amended_witness :
    fetchWithRetry respAlways404 5 = (.raised "404 Not Found", [1, 2, 4, 8]) :=
  fetch_client_error_backoff_amended respAlways404
    (fun _ => { msg := "404 Not Found", retryAfter := none })
    (fun _ _ => rfl)
    (fun k _ => by change strContains "404 Not Found" "429" = false; decide)
    (fun k _ => by change mentions5xx "404 Not Found" = false; decide)

/-- C9: when every one of the 5 attempts raises an error whose message
contains "429", the loop performs all five backoff waits
(2 s, 4 s, 8 s, 16 s, 32 s), then falls through and returns `None` —
it neither raises nor returns a list. -/
theorem fetch_all429_returns_none {α : Type} (resp : Nat → Attempt α)
    (r : Nat → AttemptError)
    (he : ∀ k, k < 5 → resp k = .err (r k))
    (hc : ∀ k, k < 5 → strContains (r k).msg "429" = true) :
    fetchWithRetry resp 5 = (.returned none, [2, 4, 8, 16, 32]) := by
  unfold fetchWithRetry
  rw [fetchGo_429 (he 0 (by norm_num)) (hc 0 (by norm_num)),
    fetchGo_429 (he 1 (by norm_num)) (hc 1 (by norm_num)),
    fetchGo_429 (he 2 (by norm_num)) (hc 2 (by norm_num)),
    fetchGo_429 (he 3 (by norm_num)) (hc 3 (by norm_num)),
    fetchGo_429 (he 4 (by norm_num)) (hc 4 (by norm_num)),
    fetchGo_exhausted]
  simp

/-- C7, the claim as stated, is false: the extraction query filters only
`address__zip IS NOT NULL`, so an empty-string zip value is retained in
the derived sequence. -/
theorem deriveZipCodes_keeps_empty_counterexample :
    deriveZipCodes [some "2100", some "", none] = ["", "2100"] ∧
    "" ∈ deriveZipCodes [some "2100", some "", none] := by
  constructor <;> decide

theorem charListLe_total : ∀ a b : List Char, charListLe a b = true ∨ charListLe b a = true
  | [], _ => .inl rfl
  | _ :: _, [] => .inr rfl
  | a :: as, b :: bs => by
    by_cases hab : a.toNat < b.toNat
    · left
      simp [charListLe, hab]
    · by_cases hba : b.toNat < a.toNat
      · right
        simp [charListLe, hba]
      · have := charListLe_total as bs
        rcases this with h | h
        · left
          simp [charListLe, hab, hba, h]
        · right
          simp [charListLe, hab, hba, h]

theorem charListLe_trans : ∀ a b c : List Char,
    charListLe a b = true → charListLe b c = true → charListLe a c = true
  | [], _, _, _, _ => rfl
  | _ :: _, [], _, hab, _ => by simp [charListLe] at hab
  | _ :: _, _ :: _, [], _, hbc => by simp [charListLe] at hbc
  | a :: as, b :: bs, c :: cs, hab, hbc => by
    simp only [charListLe] at hab hbc ⊢
    by_cases hba : b.toNat < a.toNat
    · rw [if_neg (by omega), if_pos hba] at hab
      exact absurd hab (by simp)
    · by_cases hcb : c.toNat < b.toNat
      · rw [if_neg (by omega), if_pos hcb] at hbc
        exact absurd hbc (by simp)
      · by_cases hac : a.toNat < c.toNat
        · rw [if_pos hac]
        · have hca : ¬ c.toNat < a.toNat := by
            by_cases h1 : a.toNat < b.toNat <;> by_cases h2 : b.toNat < c.toNat <;> omega
          have hanb : ¬ a.toNat < b.toNat := by omega
          have hbnc : ¬ b.toNat < c.toNat := by omega
          rw [if_neg hanb, if_neg hba] at hab
          rw [if_neg hbnc, if_neg hcb] at hbc
          rw [if_neg hac, if_neg hca]
          exact charListLe_trans as bs cs hab hbc

theorem zipLe_total (a b : String) : zipLe a b = true ∨ zipLe b a = true :=
  charListLe_total a.data b.data

theorem zipLe_trans {a b c : String} (h1 : zipLe a b = true)
    (h2 : zipLe b c = true) : zipLe a c = true :=
  charListLe_trans a.data b.data c.data h1 h2

/-- C7 amended: the derived zip-code sequence has no duplicates, is
sorted ascending (lexicographically), and a value appears in it exactly
when it appears non-null in the store rows — so NULL zips are omitted,
but empty-string zips are retained.  The derivation is a pure function
of the fetched rows. -/
theorem deriveZipCodes_sorted_nodup_amended (rows : List (Option String)) :
    (deriveZipCodes rows).Sorted (fun a b => zipLe a b = true) ∧
    (deriveZipCodes rows).Nodup ∧
    ∀ s : String, s ∈ deriveZipCodes rows ↔ some s ∈ rows := by
  haveI : IsTotal String (fun a b => zipLe a b = true) := ⟨zipLe_total⟩
  haveI : IsTrans String (fun a b => zipLe a b = true) :=
    ⟨fun _ _ _ => zipLe_trans⟩
  refine ⟨List.sorted_insertionSort _ _, ?_, ?_⟩
  · exact ((List.perm_insertionSort (fun a b => zipLe a b = true)
      (rows.filterMap id).dedup).symm.nodup_iff).mp (List.nodup_dedup _)
  · intro s
    rw [deriveZipCodes, List.Perm.mem_iff (List.perm_insertionSort _ _),
      List.mem_dedup, List.mem_filterMap]
    constructor
    · rintro ⟨o, ho, rfl⟩
      exact ho
    · intro h
      exact ⟨some s, h, rfl⟩

theorem fetch_all429_returns_none_witness :
    fetchWithRetry respAlways429 5 = (.returned none, [2, 4, 8, 16, 32]) :=
  fetch_all429_returns_none respAlways429
    (fun _ => { msg := "429 Too Many Requests", retryAfter := none })
    (fun _ _ => rfl)
    (fun k _ => by change strContains "429 Too Many Requests" "429" = true; decide)

/-! ## Coordinate normalization (C8, C10) -/

/-- C8: a two-element `coordinates` array `[lon, lat]` is split into
`longitude` (first element) and `latitude` (second element) and the
`coordinates` field is removed; the food-waste path (lines 225-229)
applies the same transformation `normalizeCoords` to the embedded store
as the store-directory path (lines 136-140) applies to the store
record. -/
theorem normalizeCoords_two_elements (s : StoreRec) (x y : ℚ)
    (h : s.coordinates = some [x, y]) :
    (normalizeCoords s).longitude = some x ∧
    (normalizeCoords s).latitude = some y ∧
    (normalizeCoords s).coordinates = none ∧
    processAllStores = List.map normalizeCoords ∧
    ∀ (z : String) (g : FwGroup),
      (annotateGroup z g).store = normalizeCoords g.store := by
  refine ⟨?_, ?_, ?_, rfl, fun z g => rfl⟩ <;> simp [normalizeCoords, h]

/-- The example store of the spec: `coordinates: [12.57, 55.68]`. -/
def storeWithCoords : StoreRec :=
  { id := "A", coordinates := some [(12.57 : ℚ), (55.68 : ℚ)],
    longitude := none, latitude := none }

theorem normalizeCoords_two_elements_witness :
    storeWithCoords.coordinates = some [(12.57 : ℚ), (55.68 : ℚ)] ∧
    ((normalizeCoords storeWithCoords).longitude = some (12.57 : ℚ) ∧
     (normalizeCoords storeWithCoords).latitude = some (55.68 : ℚ) ∧
     (normalizeCoords storeWithCoords).coordinates = none ∧
     processAllStores = List.map normalizeCoords ∧
     ∀ (z : String) (g : FwGroup),
       (annotateGroup z g).store = normalizeCoords g.store) :=
  ⟨rfl, normalizeCoords_two_elements storeWithCoords 12.57 55.68 rfl⟩

/-- C10: a present `coordinates` array with fewer than two elements is
silently dropped by both normalization paths: `coordinates` is removed
while `longitude` and `latitude` are left untouched. -/
theorem normalizeCoords_short_array (s : StoreRec) (cs : List ℚ)
    (h : s.coordinates = some cs) (hlen : cs.length < 2) :
    (normalizeCoords s).coordinates = none ∧
    (normalizeCoords s).longitude = s.longitude ∧
    (normalizeCoords s).latitude = s.latitude ∧
    ∀ (z : String) (g : FwGroup),
      (annotateGroup z g).store = normalizeCoords g.store := by
  have hcond : (!cs.isEmpty && decide (cs.length ≥ 2)) = false := by
    have hn : ¬ cs.length ≥ 2 := by omega
    simp [hn]
  refine ⟨?_, ?_, ?_, fun z g => rfl⟩ <;>
    simp [normalizeCoords, h, hcond]

/-- A one-element coordinates array. -/
def storeWithShortCoords : StoreRec :=
  { id := "B", coordinates := some [(12.5 : ℚ)],
    longitude := none, latitude := none }

theorem normalizeCoords_short_array_witness :
    storeWithShortCoords.coordinates = some [(12.5 : ℚ)] ∧
    [(12.5 : ℚ)].length < 2 ∧
    ((normalizeCoords storeWithShortCoords).coordinates = none ∧
     (normalizeCoords storeWithShortCoords).longitude =
       storeWithShortCoords.longitude ∧
     (normalizeCoords storeWithShortCoords).latitude =
       storeWithShortCoords.latitude ∧
     ∀ (z : String) (g : FwGroup),
       (annotateGroup z g).store = normalizeCoords g.store) :=
  ⟨rfl, by norm_num,
    normalizeCoords_short_array storeWithShortCoords [(12.5 : ℚ)] rfl
      (by norm_num)⟩

/-! ## Concrete harvesting runs (C2 counterexample, C3, C5) -/

/-- A store-offer group for a store with the given id and no
coordinates. -/
def plainGroup (sid : String) : FwGroup :=
  { store := { id := sid, coordinates := none,
               longitude := none, latitude := none },
    queried_zip_code := none }

/-- Zip `"1000"` returns one store-offer group; every other zip code's
fetch fails. -/
def fetchLastFails : String → ZipOutcome := fun z =>
  if z = "1000" then .ok [plainGroup "A"] else .fail

/-- Zip `"1000"` returns one store-offer group; every other zip code
returns zero results. -/
def fetchLastEmpty : String → ZipOutcome := fun z =>
  if z = "1000" then .ok [plainGroup "A"] else .ok []

/-- C3 is the spec's intent but the code violates it: when the last zip
code's fetch fails (or returns zero results), the `continue` in the
loop body skips the `i == len(zip_codes)` flush, so the non-empty
remainder batch is silently discarded — nothing is yielded even though
zip `"1000"`'s record was accumulated. -/
theorem harvest_last_zip_failure_discards_batch :
    ((harvest fetchLastFails ["1000", "2000"]).currentBatch =
       [annotateGroup "1000" (plainGroup "A")] ∧
     (harvest fetchLastFails ["1000", "2000"]).batches = [] ∧
     (harvest fetchLastFails ["1000", "2000"]).failedZips = ["2000"]) ∧
    ((harvest fetchLastEmpty ["1000", "2000"]).currentBatch =
       [annotateGroup "1000" (plainGroup "A")] ∧
     (harvest fetchLastEmpty ["1000", "2000"]).batches = [] ∧
     (harvest fetchLastEmpty ["1000", "2000"]).noDataZips = ["2000"]) := by
  decide

/-- Zip `"0600"` succeeds with one store-offer group, zip `"0500"`
fails all retries. -/
def fetchPartial : String → ZipOutcome := fun z =>
  if z = "0600" then .ok [plainGroup "S600"] else .fail

/-- C5 is the spec's intent but the code violates its last conjunct on
the run `["0600", "0500"]`: the run completes with `"0500"` recorded as
failed (and not as "no data"), yet zip `"0600"`'s store-offer group
never appears in the yielded output, because the failed last zip code
skips the final flush. -/
theorem harvest_one_zip_fails_output_lost :
    (harvest fetchPartial ["0600", "0500"]).failedZips = ["0500"] ∧
    (harvest fetchPartial ["0600", "0500"]).noDataZips = [] ∧
    (harvest fetchPartial ["0600", "0500"]).seen = ["S600"] ∧
    harvestOutput fetchPartial ["0600", "0500"] = [] := by
  decide

/-- 45 distinct zip codes. -/
def zips45 : List String := (List.range 45).map (fun k => toString (1000 + k))

/-- Every zip code succeeds with zero results. -/
def fetchAllEmpty : String → ZipOutcome := fun _ => .ok []

/-! ## Invariants of the dedup stage (towards C1) -/

theorem normalizeCoords_id (s : StoreRec) : (normalizeCoords s).id = s.id := by
  simp only [normalizeCoords]
  split <;> rfl

theorem annotateGroup_id (z : String) (g : FwGroup) :
    (annotateGroup z g).store.id = g.store.id :=
  normalizeCoords_id g.store

theorem dedupAdd_cons (z : String) (st : HState) (g : FwGroup)
    (gs : List FwGroup) :
    dedupAdd z st (g :: gs) =
      dedupAdd z
        (if st.seen.contains g.store.id then st
         else
           { st with
             seen := st.seen ++ [g.store.id],
             currentBatch := st.currentBatch ++ [annotateGroup z g] }) gs := rfl

/-- What the inner dedup loop does to the state: it appends a sublist
`added` of annotated groups, with exactly the fresh store ids, to the
current batch, and their ids to `seen_store_ids`; everything else is
untouched. -/
theorem dedupAdd_spec (z : String) :
    ∀ (groups : List FwGroup) (st : HState),
    ∃ added : List FwGroup,
      (dedupAdd z st groups).seen = st.seen ++ idsOf added ∧
      (dedupAdd z st groups).currentBatch = st.currentBatch ++ added ∧
      (dedupAdd z st groups).batches = st.batches ∧
      (dedupAdd z st groups).failedZips = st.failedZips ∧
      (dedupAdd z st groups).noDataZips = st.noDataZips ∧
      (∀ g ∈ added, g.queried_zip_code = some z) ∧
      (idsOf added).Nodup ∧
      (∀ sid ∈ idsOf added, sid ∉ st.seen) ∧
      (∀ sid, (sid ∈ st.seen ∨ sid ∈ idsOf added) ↔
        (sid ∈ st.seen ∨ sid ∈ idsOf groups))
  | [], st => by
    refine ⟨[], ?_, ?_, rfl, rfl, rfl, ?_, ?_, ?_, ?_⟩
    · simp [dedupAdd, idsOf]
    · simp [dedupAdd]
    · intro g hg
      simp at hg
    · simp [idsOf]
    · intro sid hsid
      simp [idsOf] at hsid
    · intro sid
      simp [idsOf]
  | g :: gs, st => by
    rw [dedupAdd_cons]
    by_cases hmem : st.seen.contains g.store.id
    · rw [if_pos hmem]
      have hgid : g.store.id ∈ st.seen := by
        simpa using hmem
      obtain ⟨added, h1, h2, h3, h4, h5, h6, h7, h8, h9⟩ := dedupAdd_spec z gs st
      refine ⟨added, h1, h2, h3, h4, h5, h6, h7, h8, fun sid => ?_⟩
      have h9s := h9 sid
      have hcons : sid ∈ idsOf (g :: gs) ↔
          sid = g.store.id ∨ sid ∈ idsOf gs := by
        simp [idsOf]
      rw [hcons]
      constructor
      · intro h
        rcases h9s.mp h with h | h
        · exact .inl h
        · exact .inr (.inr h)
      · rintro (h | rfl | h)
        · exact .inl h
        · exact .inl hgid
        · exact h9s.mpr (.inr h)
    · rw [if_neg hmem]
      have hgid : g.store.id ∉ st.seen := by
        simpa using hmem
      obtain ⟨added, h1, h2, h3, h4, h5, h6, h7, h8, h9⟩ :=
        dedupAdd_spec z gs
          { st with
            seen := st.seen ++ [g.store.id],
            currentBatch := st.currentBatch ++ [annotateGroup z g] }
      have h1r : (dedupAdd z
          { st with
            seen := st.seen ++ [g.store.id],
            currentBatch := st.currentBatch ++ [annotateGroup z g] } gs).seen =
          (st.seen ++ [g.store.id]) ++ idsOf added := h1
      have h2r : (dedupAdd z
          { st with
            seen := st.seen ++ [g.store.id],
            currentBatch := st.currentBatch ++ [annotateGroup z g] } gs).currentBatch =
          (st.currentBatch ++ [annotateGroup z g]) ++ added := h2
      have h8r : ∀ sid ∈ idsOf added, ¬ (sid ∈ st.seen ++ [g.store.id]) := h8
      have h9r : ∀ sid, (sid ∈ st.seen ++ [g.store.id] ∨ sid ∈ idsOf added) ↔
          (sid ∈ st.seen ++ [g.store.id] ∨ sid ∈ idsOf gs) := h9
      have hids : idsOf (annotateGroup z g :: added) =
          g.store.id :: idsOf added := by
        simp [idsOf, annotateGroup_id]
      refine ⟨annotateGroup z g :: added, ?_, ?_, h3, h4, h5, ?_, ?_, ?_, ?_⟩
      · rw [h1r, hids]
        simp
      · rw [h2r]
        simp
      · intro g' hg'
        rcases List.mem_cons.mp hg' with rfl | hg'
        · rfl
        · exact h6 g' hg'
      · rw [hids]
        refine List.nodup_cons.mpr ⟨fun hc => ?_, h7⟩
        exact h8r _ hc (by simp)
      · rw [hids]
        intro sid hsid
        rcases List.mem_cons.mp hsid with rfl | hsid
        · exact hgid
        · intro hseen
          exact h8r sid hsid (by simp [hseen])
      · intro sid
        have h9s := h9r sid
        have hcons : sid ∈ idsOf (g :: gs) ↔
            sid = g.store.id ∨ sid ∈ idsOf gs := by
          simp [idsOf]
        rw [hids, hcons]
        simp only [List.mem_append, List.mem_singleton, List.mem_cons,
          List.mem_nil_iff, or_false] at h9s ⊢
        rw [← or_assoc, h9s, or_assoc]

/-- What one iteration of the zip-code loop does to the dedup state:
it appends a list `added` of records annotated with this zip code — all
with fresh, mutually distinct store ids — to the retained records, and
their ids to `seen_store_ids`; after the step a store id is seen iff it
was seen before or this zip code's response contains it. -/
theorem stepZip_spec (fetch : String → ZipOutcome) (n i : Nat) (z : String)
    (st : HState) :
    ∃ added : List FwGroup,
      retainedRecords (stepZip fetch n i z st) = retainedRecords st ++ added ∧
      (stepZip fetch n i z st).seen = st.seen ++ idsOf added ∧
      (∀ g ∈ added, g.queried_zip_code = some z) ∧
      (idsOf added).Nodup ∧
      (∀ sid ∈ idsOf added, sid ∉ st.seen) ∧
      (∀ sid, sid ∈ (stepZip fetch n i z st).seen ↔
        (sid ∈ st.seen ∨ zipHits fetch sid z = true)) := by
  cases hf : fetch z with
  | fail =>
    refine ⟨[], ?_, ?_, ?_, ?_, ?_, ?_⟩ <;>
      simp [stepZip, hf, retainedRecords, idsOf, zipHits]
  | ok groups =>
    by_cases hge : groups.isEmpty
    · have hnil : groups = [] := List.isEmpty_iff.mp hge
      subst hnil
      refine ⟨[], ?_, ?_, ?_, ?_, ?_, ?_⟩ <;>
        simp [stepZip, hf, retainedRecords, idsOf, zipHits]
    · obtain ⟨added, h1, h2, h3, h4, h5, h6, h7, h8, h9⟩ :=
        dedupAdd_spec z groups st
      have hmem_ids : ∀ sid, sid ∈ idsOf groups ↔ zipHits fetch sid z = true := by
        intro sid
        simp [zipHits, hf, idsOf, List.any_eq_true, List.mem_map]
      have hseen : (stepZip fetch n i z st).seen = st.seen ++ idsOf added := by
        simp only [stepZip, hf]
        rw [if_neg hge]
        split
        · exact h1
        · exact h1
      refine ⟨added, ?_, hseen, h6, h7, h8, ?_⟩
      · simp only [stepZip, hf]
        rw [if_neg hge]
        split
        · simp only [retainedRecords, List.flatten_append,
            List.flatten_cons, List.flatten_nil, List.append_nil, h2, h3]
          simp [List.append_assoc]
        · simp only [retainedRecords, h2, h3]
          simp [List.append_assoc]
      · intro sid
        rw [hseen]
        have h9s := h9 sid
        rw [← hmem_ids sid]
        simp only [List.mem_append]
        exact h9s

theorem find?_append_of_some {α : Type} {p : α → Bool} {l1 l2 : List α}
    {a : α} (h : l1.find? p = some a) : (l1 ++ l2).find? p = some a := by
  rw [List.find?_append, h]
  rfl

theorem find?_append_of_none {α : Type} {p : α → Bool} {l1 l2 : List α}
    (h : l1.find? p = none) : (l1 ++ l2).find? p = l2.find? p := by
  rw [List.find?_append, h]
  rfl

/-- `find?` returns the element at the first index whose entry satisfies
the predicate. -/
theorem find?_of_first_index {α : Type} (p : α → Bool) :
    ∀ (l : List α) (i : Nat) (a : α), l[i]? = some a → p a = true →
      (∀ k, k < i → ∀ b, l[k]? = some b → p b = false) →
      l.find? p = some a
  | [], i, a, h, _, _ => by simp at h
  | x :: xs, 0, a, h, hp, _ => by
    simp only [List.getElem?_cons_zero, Option.some.injEq] at h
    subst h
    simp [List.find?_cons, hp]
  | x :: xs, i + 1, a, h, hp, hb => by
    have hx : p x = false := hb 0 (Nat.succ_pos i) x (by simp)
    simp only [List.getElem?_cons_succ] at h
    rw [List.find?_cons, hx]
    exact find?_of_first_index p xs i a h hp
      (fun k hk b hkb => hb (k + 1) (by omega) b (by simpa using hkb))

theorem exists_mem_append_iff {α : Type} {P : α → Prop} {l1 l2 : List α} :
    (∃ x ∈ l1 ++ l2, P x) ↔ (∃ x ∈ l1, P x) ∨ (∃ x ∈ l2, P x) := by
  simp [List.mem_append, or_and_right, exists_or]

/-- The dedup invariant carried through the whole zip-code loop: after
processing `zips` (having already processed `done`), a store id is seen
iff some processed zip code returned it, the retained records' ids are
exactly `seen_store_ids` (hence pairwise distinct), and every retained
record is annotated with the *first* processed zip code that returned
its store. -/
theorem harvestGo_dedup_invariant (fetch : String → ZipOutcome) (n : Nat) :
    ∀ (zips : List String) (i : Nat) (done : List String) (st : HState),
    (∀ sid, sid ∈ st.seen ↔ ∃ z ∈ done, zipHits fetch sid z = true) →
    (∀ g ∈ retainedRecords st,
      g.queried_zip_code = firstHit fetch done g.store.id) →
    st.seen.Nodup →
    idsOf (retainedRecords st) = st.seen →
    ((∀ sid, sid ∈ (harvestGo fetch n i zips st).seen ↔
        ∃ z ∈ done ++ zips, zipHits fetch sid z = true) ∧
     (∀ g ∈ retainedRecords (harvestGo fetch n i zips st),
        g.queried_zip_code = firstHit fetch (done ++ zips) g.store.id) ∧
     (harvestGo fetch n i zips st).seen.Nodup ∧
     idsOf (retainedRecords (harvestGo fetch n i zips st)) =
       (harvestGo fetch n i zips st).seen)
  | [], i, done, st => by
    intro hseen hq hnd hids
    simp only [harvestGo, List.append_nil]
    exact ⟨hseen, hq, hnd, hids⟩
  | z :: rest, i, done, st => by
    intro hseen hq hnd hids
    obtain ⟨added, a1, a2, a3, a4, a5, a6⟩ := stepZip_spec fetch n i z st
    set st1 := stepZip fetch n i z st with hst1
    -- the four invariants after one more zip code
    have hseen1 : ∀ sid, sid ∈ st1.seen ↔
        ∃ z' ∈ done ++ [z], zipHits fetch sid z' = true := by
      intro sid
      rw [a6 sid, hseen sid, exists_mem_append_iff]
      simp
    have hq1 : ∀ g ∈ retainedRecords st1,
        g.queried_zip_code = firstHit fetch (done ++ [z]) g.store.id := by
      intro g hg
      rw [a1] at hg
      rcases List.mem_append.mp hg with hold | hnew
      · have hqg := hq g hold
        have hidg : g.store.id ∈ st.seen := by
          rw [← hids]
          exact List.mem_map_of_mem _ hold
        have hfirst : ∃ z0, firstHit fetch done g.store.id = some z0 := by
          rcases hfind : List.find? (zipHits fetch g.store.id) done with _ | z0
          · exfalso
            obtain ⟨z', hz', hhit⟩ := (hseen g.store.id).mp hidg
            have := List.find?_eq_none.mp hfind z' hz'
            exact this hhit
          · exact ⟨z0, hfind⟩
        obtain ⟨z0, hz0⟩ := hfirst
        have hext : firstHit fetch (done ++ [z]) g.store.id = some z0 :=
          find?_append_of_some (p := zipHits fetch g.store.id) hz0
        rw [hqg, hz0, hext]
      · have hzq := a3 g hnew
        have hidadd : g.store.id ∈ idsOf added := List.mem_map_of_mem _ hnew
        have hnotseen : g.store.id ∉ st.seen := a5 _ hidadd
        have hhitz : zipHits fetch g.store.id z = true := by
          have : g.store.id ∈ st1.seen := by
            rw [a2]
            exact List.mem_append_right _ hidadd
          rcases (a6 g.store.id).mp this with h | h
          · exact absurd h hnotseen
          · exact h
        have hnone : List.find? (zipHits fetch g.store.id) done = none := by
          rw [List.find?_eq_none]
          intro z' hz'
          intro hhit
          exact hnotseen ((hseen g.store.id).mpr ⟨z', hz', hhit⟩)
        have hext : firstHit fetch (done ++ [z]) g.store.id = some z := by
          show List.find? (zipHits fetch g.store.id) (done ++ [z]) = some z
          rw [find?_append_of_none hnone]
          simp [List.find?_cons, hhitz]
        rw [hzq, hext]
    have hnd1 : st1.seen.Nodup := by
      rw [a2, List.nodup_append]
      refine ⟨hnd, a4, fun sid hsid => ?_⟩
      intro hsid2
      exact a5 sid hsid2 hsid
    have hids1 : idsOf (retainedRecords st1) = st1.seen := by
      rw [a1, a2, idsOf, List.map_append, ← idsOf, ← idsOf, hids]
    have ih := harvestGo_dedup_invariant fetch n rest (i + 1) (done ++ [z]) st1
      hseen1 hq1 hnd1 hids1
    have happ : (done ++ [z]) ++ rest = done ++ (z :: rest) := by
      simp
    rw [happ] at ih
    simpa only [harvestGo] using ih

/-- C1, first-seen-wins deduplication: in every run, the store ids of
the yielded output are pairwise distinct (each store id appears at most
once), and when zip code `z1` is iterated before `z2`, both return a
group for store `sid`, and no zip code before `z1` returns that store,
then any output record for `sid` carries `queried_zip_code = z1` — the
group returned by `z2` is dropped entirely. -/
theorem harvest_first_seen_wins (fetch : String → ZipOutcome)
    (zips : List String) (sid z1 z2 : String) (i j : Nat)
    (hij : i < j) (hjlt : j < zips.length)
    (hz1 : zips[i]? = some z1) (hz2 : zips[j]? = some z2)
    (hhit1 : zipHits fetch sid z1 = true) (hhit2 : zipHits fetch sid z2 = true)
    (hbefore : ∀ k, k < i → ∀ z, zips[k]? = some z →
      zipHits fetch sid z = false) :
    (idsOf (harvestOutput fetch zips)).Nodup ∧
    ∀ g ∈ harvestOutput fetch zips, g.store.id = sid →
      g.queried_zip_code = some z1 := by
  have hinv := harvestGo_dedup_invariant fetch zips.length zips 1 [] initHState
    (by intro sid'; simp [initHState])
    (by intro g hg; simp [initHState, retainedRecords] at hg)
    (by simp [initHState])
    (by simp [initHState, retainedRecords, idsOf])
  rw [List.nil_append] at hinv
  obtain ⟨hseen, hq, hnd, hids⟩ := hinv
  have hidsH : idsOf (retainedRecords (harvest fetch zips)) =
      (harvest fetch zips).seen := hids
  have hndH : (harvest fetch zips).seen.Nodup := hnd
  have hqH : ∀ g ∈ retainedRecords (harvest fetch zips),
      g.queried_zip_code = firstHit fetch zips g.store.id := hq
  constructor
  · have hretNodup : (idsOf (retainedRecords (harvest fetch zips))).Nodup := by
      rw [hidsH]
      exact hndH
    have hsplit : idsOf (retainedRecords (harvest fetch zips)) =
        idsOf (harvestOutput fetch zips) ++
          idsOf ((harvest fetch zips).currentBatch) := by
      simp [retainedRecords, harvestOutput, idsOf]
    rw [hsplit] at hretNodup
    exact (List.nodup_append.mp hretNodup).1
  · intro g hg hgid
    have hgret : g ∈ retainedRecords (harvest fetch zips) :=
      List.mem_append_left _ hg
    have hqg := hqH g hgret
    have hfirst : firstHit fetch zips sid = some z1 :=
      find?_of_first_index _ zips i z1 hz1 hhit1 hbefore
    rw [hgid] at hqg
    rw [hqg, hfirst]

/-- Two zip codes whose catchment areas overlap on store `"A"`. -/
def fetchOverlap : String → ZipOutcome := fun z =>
  if z = "1000" then .ok [plainGroup "A"]
  else if z = "2000" then .ok [plainGroup "A", plainGroup "B"]
  else .fail

theorem harvest_first_seen_wins_witness :
    ((0 : Nat) < 1 ∧ (1 : Nat) < (["1000", "2000"] : List String).length ∧
     zipHits fetchOverlap "A" "1000" = true ∧
     zipHits fetchOverlap "A" "2000" = true) ∧
    ((idsOf (harvestOutput fetchOverlap ["1000", "2000"])).Nodup ∧
     ∀ g ∈ harvestOutput fetchOverlap ["1000", "2000"], g.store.id = "A" →
       g.queried_zip_code = some "1000") :=
  ⟨⟨by decide, by decide, by decide, by decide⟩,
   harvest_first_seen_wins fetchOverlap ["1000", "2000"] "A" "1000" "2000" 0 1
     (by decide) (by decide) (by decide) (by decide) (by decide) (by decide)
     (fun k hk z hz => absurd hk (Nat.not_lt_zero k))⟩

/-! ## The batch-flush schedule (towards C2) -/

/-- The store ids a zip code's response contributes. -/
def zipIds (fetch : String → ZipOutcome) (z : String) : List String :=
  match fetch z with
  | .fail => []
  | .ok gs => idsOf gs

/-- The annotated records a zip code's response contributes (when all
its ids are fresh). -/
def stepRecs (fetch : String → ZipOutcome) (z : String) : List FwGroup :=
  match fetch z with
  | .fail => []
  | .ok gs => gs.map (annotateGroup z)

theorem harvestGo_append (fetch : String → ZipOutcome) (n : Nat) :
    ∀ (l1 l2 : List String) (i : Nat) (st : HState),
    harvestGo fetch n i (l1 ++ l2) st =
      harvestGo fetch n (i + l1.length) l2 (harvestGo fetch n i l1 st)
  | [], l2, i, st => by simp [harvestGo]
  | z :: rest, l2, i, st => by
    rw [show (z :: rest) ++ l2 = z :: (rest ++ l2) from rfl]
    rw [show harvestGo fetch n i (z :: (rest ++ l2)) st =
      harvestGo fetch n (i + 1) (rest ++ l2) (stepZip fetch n i z st) from rfl]
    rw [show harvestGo fetch n i (z :: rest) st =
      harvestGo fetch n (i + 1) rest (stepZip fetch n i z st) from rfl]
    rw [harvestGo_append fetch n rest l2 (i + 1) (stepZip fetch n i z st)]
    rw [show i + (z :: rest).length = i + 1 + rest.length from by
      simp
      omega]

/-- One loop iteration on a zip code returning exactly one group with a
fresh store id: the record is appended, and the batch is flushed iff
the index test fires (the batch is necessarily non-empty). -/
theorem stepZip_fresh (fetch : String → ZipOutcome) (n i : Nat) (z : String)
    (st : HState) (g : FwGroup) (hg : fetch z = .ok [g])
    (hfresh : g.store.id ∉ st.seen) :
    stepZip fetch n i z st =
      if (i % 20 == 0 || i == n) = true then
        { st with
          seen := st.seen ++ [g.store.id],
          batches := st.batches ++ [st.currentBatch ++ [annotateGroup z g]],
          currentBatch := [] }
      else
        { st with
          seen := st.seen ++ [g.store.id],
          currentBatch := st.currentBatch ++ [annotateGroup z g] } := by
  have hcont : ¬ st.seen.contains g.store.id = true := by simpa using hfresh
  simp only [stepZip, hg]
  rw [if_neg (show ¬ (([g] : List FwGroup).isEmpty = true) by simp)]
  rw [dedupAdd_cons, if_neg hcont]
  simp only [dedupAdd, List.foldl_nil]
  have hne : (!({ st with
      seen := st.seen ++ [g.store.id],
      currentBatch := st.currentBatch ++ [annotateGroup z g] } :
        HState).currentBatch.isEmpty) = true := by
    simp
  simp only [hne, Bool.and_true]

/-- A maximal run of zip codes between two flush points, each returning
exactly one fresh store-offer group: all their records are accumulated
and flushed as one batch at the run's last index. -/
theorem harvestGo_window (fetch : String → ZipOutcome) (n : Nat) :
    ∀ (zips : List String) (i : Nat) (st : HState),
    zips ≠ [] →
    (∀ z ∈ zips, ∃ g, fetch z = .ok [g]) →
    ((zips.map (zipIds fetch)).flatten).Nodup →
    (∀ sid ∈ (zips.map (zipIds fetch)).flatten, sid ∉ st.seen) →
    (∀ k, k + 1 < zips.length → (i + k) % 20 ≠ 0 ∧ i + k ≠ n) →
    ((i + zips.length - 1) % 20 = 0 ∨ i + zips.length - 1 = n) →
    harvestGo fetch n i zips st =
      { seen := st.seen ++ (zips.map (zipIds fetch)).flatten,
        currentBatch := [],
        batches := st.batches ++
          [st.currentBatch ++ (zips.map (stepRecs fetch)).flatten],
        failedZips := st.failedZips,
        noDataZips := st.noDataZips }
  | [], _, _, hne, _, _, _, _, _ => absurd rfl hne
  | [z], i, st, _, hone, hnd, hdisj, _, hlast => by
    obtain ⟨g, hg⟩ := hone z (by simp)
    have hfresh : g.store.id ∉ st.seen := by
      apply hdisj
      simp [zipIds, hg, idsOf]
    have hlast1 : i % 20 = 0 ∨ i = n := by simpa using hlast
    have hcond : (i % 20 == 0 || i == n) = true := by
      rcases hlast1 with h | h <;> simp [h]
    rw [show harvestGo fetch n i [z] st =
      harvestGo fetch n (i + 1) [] (stepZip fetch n i z st) from rfl]
    rw [show harvestGo fetch n (i + 1) [] (stepZip fetch n i z st) =
      stepZip fetch n i z st from rfl]
    rw [stepZip_fresh fetch n i z st g hg hfresh, if_pos hcond]
    simp [zipIds, stepRecs, hg, idsOf]
  | z :: z2 :: rest, i, st, _, hone, hnd, hdisj, hint, hlast => by
    obtain ⟨g, hg⟩ := hone z (by simp)
    have hzids : zipIds fetch z = [g.store.id] := by
      simp [zipIds, hg, idsOf]
    have hzrecs : stepRecs fetch z = [annotateGroup z g] := by
      simp [stepRecs, hg]
    have hflat : ((z :: z2 :: rest).map (zipIds fetch)).flatten =
        g.store.id :: ((z2 :: rest).map (zipIds fetch)).flatten := by
      simp [hzids]
    have hfresh : g.store.id ∉ st.seen := by
      apply hdisj
      rw [hflat]
      simp
    have hcond : (i % 20 == 0 || i == n) = false := by
      obtain ⟨h1, h2⟩ := hint 0 (by simp)
      simp only [Nat.add_zero] at h1 h2
      simp [h1, h2]
    have hstep := stepZip_fresh fetch n i z st g hg hfresh
    rw [hcond] at hstep
    simp only [Bool.false_eq_true, if_false] at hstep
    have hndtail : (((z2 :: rest).map (zipIds fetch)).flatten).Nodup := by
      rw [hflat] at hnd
      exact (List.nodup_cons.mp hnd).2
    have hgid_rest : g.store.id ∉ ((z2 :: rest).map (zipIds fetch)).flatten := by
      rw [hflat] at hnd
      exact (List.nodup_cons.mp hnd).1
    have ih := harvestGo_window fetch n (z2 :: rest) (i + 1)
      { st with
        seen := st.seen ++ [g.store.id],
        currentBatch := st.currentBatch ++ [annotateGroup z g] }
      (by simp)
      (fun z' hz' => hone z' (by simp [hz']))
      hndtail
      (by
        intro sid hsid
        simp only [List.mem_append, List.mem_singleton]
        rintro (h | rfl)
        · exact hdisj sid (by rw [hflat]; exact List.mem_cons_of_mem _ hsid) h
        · exact hgid_rest hsid)
      (by
        intro k hk
        have := hint (k + 1) (by simp at hk ⊢; omega)
        rw [show i + (k + 1) = i + 1 + k from by omega] at this
        exact this)
      (by
        have : i + 1 + (z2 :: rest).length - 1 =
            i + (z :: z2 :: rest).length - 1 := by
          simp
          omega
        rw [this]
        exact hlast)
    rw [show harvestGo fetch n i (z :: z2 :: rest) st =
      harvestGo fetch n (i + 1) (z2 :: rest) (stepZip fetch n i z st) from rfl]
    rw [hstep, ih, hflat]
    simp [hzrecs, List.append_assoc]

/-- The records contributed by a run of one-group zip codes are
annotated with, in order, exactly those zip codes. -/
theorem stepRecs_queried (fetch : String → ZipOutcome) :
    ∀ (l : List String), (∀ z ∈ l, ∃ g, fetch z = .ok [g]) →
    ((l.map (stepRecs fetch)).flatten).map (fun g => g.queried_zip_code) =
      l.map some
  | [], _ => by simp
  | z :: rest, hone => by
    obtain ⟨g, hg⟩ := hone z (by simp)
    simp only [List.map_cons, List.flatten_cons, List.map_append]
    rw [stepRecs_queried fetch rest (fun z' hz' => hone z' (by simp [hz']))]
    simp [stepRecs, hg, annotateGroup]

/-- C2 amended: with 45 zip codes, each of whose fetches succeeds and
returns exactly one store-offer group, all store ids distinct, the
harvester emits exactly 3 batches, accumulated over the zip-code
windows 1-20, 21-40 and 41-45 (sizes 20, 20, 5). -/
theorem harvest_45_batches_amended (fetch : String → ZipOutcome)
    (zips : List String) (hlen : zips.length = 45)
    (hone : ∀ z ∈ zips, ∃ g, fetch z = .ok [g])
    (hnd : ((zips.map (zipIds fetch)).flatten).Nodup) :
    (harvest fetch zips).batches.map
        (fun b => b.map (fun g => g.queried_zip_code)) =
      [(zips.take 20).map some, ((zips.drop 20).take 20).map some,
        (zips.drop 40).map some] ∧
    (harvest fetch zips).batches.map List.length = [20, 20, 5] := by
  have h40 : zips.drop 40 = (zips.drop 20).drop 20 := by
    rw [List.drop_drop]
  have hsplit : zips = zips.take 20 ++
      ((zips.drop 20).take 20 ++ zips.drop 40) := by
    rw [h40, List.take_append_drop, List.take_append_drop]
  have hl1 : (zips.take 20).length = 20 := by
    rw [List.length_take, hlen]
    omega
  have hl2 : ((zips.drop 20).take 20).length = 20 := by
    rw [List.length_take, List.length_drop, hlen]
    omega
  have hl3 : (zips.drop 40).length = 5 := by
    rw [List.length_drop, hlen]
  have hone1 : ∀ z ∈ zips.take 20, ∃ g, fetch z = .ok [g] :=
    fun z hz => hone z ((List.take_sublist 20 zips).subset hz)
  have hone2 : ∀ z ∈ (zips.drop 20).take 20, ∃ g, fetch z = .ok [g] :=
    fun z hz => hone z ((List.drop_sublist 20 zips).subset
      ((List.take_sublist 20 (zips.drop 20)).subset hz))
  have hone3 : ∀ z ∈ zips.drop 40, ∃ g, fetch z = .ok [g] :=
    fun z hz => hone z ((List.drop_sublist 40 zips).subset hz)
  have hflatsplit : (zips.map (zipIds fetch)).flatten =
      ((zips.take 20).map (zipIds fetch)).flatten ++
        ((((zips.drop 20).take 20).map (zipIds fetch)).flatten ++
          ((zips.drop 40).map (zipIds fetch)).flatten) := by
    conv_lhs => rw [hsplit]
    simp [List.map_append, List.flatten_append]
  rw [hflatsplit] at hnd
  obtain ⟨hnd1, hnd23, hdisj1⟩ := List.nodup_append.mp hnd
  obtain ⟨hnd2, hnd3, hdisj23⟩ := List.nodup_append.mp hnd23
  -- window 1: positions 1..20, flushes at 20
  have hw1 : harvestGo fetch 45 1 (zips.take 20) initHState =
      { seen := ((zips.take 20).map (zipIds fetch)).flatten,
        currentBatch := [],
        batches := [((zips.take 20).map (stepRecs fetch)).flatten],
        failedZips := [], noDataZips := [] } := by
    rw [harvestGo_window fetch 45 (zips.take 20) 1 initHState
      (by intro h; rw [h] at hl1; simp at hl1)
      hone1 hnd1
      (by intro sid hsid; simp [initHState])
      (by intro k hk; rw [hl1] at hk; omega)
      (by rw [hl1]; omega)]
    simp [initHState]
  -- window 2: positions 21..40, flushes at 40
  have hw2 : harvestGo fetch 45 21 ((zips.drop 20).take 20)
      { seen := ((zips.take 20).map (zipIds fetch)).flatten,
        currentBatch := [],
        batches := [((zips.take 20).map (stepRecs fetch)).flatten],
        failedZips := [], noDataZips := [] } =
      { seen := ((zips.take 20).map (zipIds fetch)).flatten ++
          ((((zips.drop 20).take 20)).map (zipIds fetch)).flatten,
        currentBatch := [],
        batches := [((zips.take 20).map (stepRecs fetch)).flatten,
          (((zips.drop 20).take 20).map (stepRecs fetch)).flatten],
        failedZips := [], noDataZips := [] } := by
    rw [harvestGo_window fetch 45 ((zips.drop 20).take 20) 21 _
      (by intro h; rw [h] at hl2; simp at hl2)
      hone2 hnd2
      (by
        intro sid hsid
        intro hmem
        exact hdisj1 hmem (List.mem_append_left _ hsid))
      (by intro k hk; rw [hl2] at hk; omega)
      (by rw [hl2]; omega)]
    simp
  -- window 3: positions 41..45, flushes at 45 = n
  have hw3 : harvestGo fetch 45 41 (zips.drop 40)
      { seen := ((zips.take 20).map (zipIds fetch)).flatten ++
          ((((zips.drop 20).take 20)).map (zipIds fetch)).flatten,
        currentBatch := [],
        batches := [((zips.take 20).map (stepRecs fetch)).flatten,
          (((zips.drop 20).take 20).map (stepRecs fetch)).flatten],
        failedZips := [], noDataZips := [] } =
      { seen := (((zips.take 20).map (zipIds fetch)).flatten ++
          ((((zips.drop 20).take 20)).map (zipIds fetch)).flatten) ++
            ((zips.drop 40).map (zipIds fetch)).flatten,
        currentBatch := [],
        batches := [((zips.take 20).map (stepRecs fetch)).flatten,
          (((zips.drop 20).take 20).map (stepRecs fetch)).flatten,
          ((zips.drop 40).map (stepRecs fetch)).flatten],
        failedZips := [], noDataZips := [] } := by
    rw [harvestGo_window fetch 45 (zips.drop 40) 41 _
      (by intro h; rw [h] at hl3; simp at hl3)
      hone3 hnd3
      (by
        intro sid hsid
        intro hmem
        rcases List.mem_append.mp hmem with h | h
        · exact hdisj1 h (List.mem_append_right _ hsid)
        · exact hdisj23 h hsid)
      (by intro k hk; rw [hl3] at hk; omega)
      (by rw [hl3]; omega)]
    simp [List.append_assoc]
  have hrun : (harvest fetch zips).batches =
      [((zips.take 20).map (stepRecs fetch)).flatten,
        (((zips.drop 20).take 20).map (stepRecs fetch)).flatten,
        ((zips.drop 40).map (stepRecs fetch)).flatten] := by
    rw [harvest, hlen]
    conv_lhs => rw [hsplit]
    rw [harvestGo_append, hw1, hl1]
    rw [show (1 : Nat) + 20 = 21 from rfl]
    rw [harvestGo_append, hw2, hl2]
    rw [show (21 : Nat) + 20 = 41 from rfl]
    rw [hw3]
  have hq1 := stepRecs_queried fetch (zips.take 20) hone1
  have hq2 := stepRecs_queried fetch ((zips.drop 20).take 20) hone2
  have hq3 := stepRecs_queried fetch (zips.drop 40) hone3
  constructor
  · rw [hrun]
    simp only [List.map_cons, List.map_nil]
    rw [hq1, hq2, hq3]
  · rw [hrun]
    have e1 := congrArg List.length hq1
    have e2 := congrArg List.length hq2
    have e3 := congrArg List.length hq3
    simp only [List.length_map] at e1 e2 e3
    simp only [List.map_cons, List.map_nil]
    rw [e1, e2, e3, hl1, hl2, hl3]

/-- Each zip code returns exactly one group, for a store whose id is
the zip code itself (so all ids are distinct). -/
def fetchFresh : String → ZipOutcome := fun z => .ok [plainGroup z]

theorem harvest_45_batches_amended_witness :
    zips45.length = 45 ∧
    (harvest fetchFresh zips45).batches.map List.length = [20, 20, 5] :=
  ⟨by decide,
    (harvest_45_batches_amended fetchFresh zips45 (by decide)
      (fun z _ => ⟨plainGroup z, rfl⟩) (by decide)).2⟩

/-- C2, the claim as stated, is false: emitting 3 batches needs more
than "no zip code's fetch fails" — with 45 zip codes that all succeed
with zero results, the harvester emits no batch at all (an empty
accumulator is never yielded). -/
theorem harvest_45_empty_counterexample :
    zips45.length = 45 ∧
    (∀ z ∈ zips45, fetchAllEmpty z ≠ .fail) ∧
    (harvest fetchAllEmpty zips45).batches.length = 0 := by
  refine ⟨by decide, by decide, by decide⟩
